import Mathlib

/-!
Verification of the whimsy test-execution engine.

Shallow embedding of the core of the `whimsy` hierarchical test framework:
the outcome enumeration and result tree (`result.py`), the suite/test tree
(`suite.py`, `test.py`), the runner (`runner.py`), the JUnit flattening and
testcase conversion (`result.py`), the console iteration (`result.py`), the
construction of suites (`suite.py`), and the `cacheresult` memoization
combinator (`helper.py`).

Conventions of the embedding:
* Python machinery with no semantic content for the verified claims
  (logging, terminal separators) is dropped.
* A fixture is identified by its name (a `String`): the runner only ever
  calls `setup()`/`teardown()` on fixtures, recorded here as events.
* The test body is external user code; it is embedded by its effect on the
  fresh mutable `TestCaseResult` handed to it: either it raises (with a
  message) or it returns leaving an optional outcome and optional reason.
* Fallible code is embedded in `Except`; a Python `NameError` on an
  undefined variable is an `Except.error`.
-/

namespace Whimsy

/-- Outcome enumeration `Result` from `result.py` (declaration order
`PASS, XFAIL, SKIP, ERROR, FAIL`). -/
inductive Result where
  | PASS
  | XFAIL
  | SKIP
  | ERROR
  | FAIL
deriving DecidableEq, Repr

/-- Membership in `Result.failfast = {Result.ERROR, Result.FAIL}`
(`result.py` line 24), applied by the runner to `result.result`, which for a
test case result is an optional outcome (`None in {ERROR, FAIL}` is false in
Python). -/
def Result.failfastCheck (o : Option Result) : Bool :=
  o == some Result.ERROR || o == some Result.FAIL

/-- Result tree from `result.py`: a `TestCaseResult` leaf holds `_name`,
`_result` (possibly `None`), `reason`, and its timer's elapsed time; a
`TestSuiteResult` node holds `_name`, its timer's elapsed time and the
ordered `results` list. -/
inductive RTree where
  | TestCaseResult (name : String) (outcome : Option Result)
      (reason : Option String) (elapsed : Nat)
  | TestSuiteResult (name : String) (elapsed : Nat) (results : List RTree)
deriving Repr

mutual

/-- Value of the `result` property of a result node: a `TestCaseResult`
returns its stored `_result`; a `TestSuiteResult` computes its outcome on
demand from its direct children (`result.py` lines 89-121). -/
def resultOf : RTree → Option Result
  | .TestCaseResult _ o _ _ => o
  | .TestSuiteResult _ _ rs => some (suiteResultLoop rs false true)

/-- Loop body of `TestSuiteResult.result`: scan direct children in order
with accumulators `failed` and `all_skipped`, returning `ERROR` at the first
`ERROR` child, else `FAIL` if some child was `FAIL`, else `SKIP` if every
child was `SKIP` (vacuously for no children), else `PASS`. -/
def suiteResultLoop : List RTree → Bool → Bool → Result
  | [], failed, all_skipped =>
      if failed then .FAIL else if all_skipped then .SKIP else .PASS
  | r :: rest, failed, all_skipped =>
      let res := resultOf r
      if res = some .ERROR then .ERROR
      else suiteResultLoop rest (failed || (res == some .FAIL))
                                (all_skipped && (res == some .SKIP))

end

/-- Computed outcome of a `TestSuiteResult` with the given direct children
(the `result` property with initial accumulators `failed = False`,
`all_skipped = True`). -/
def suiteResult (rs : List RTree) : Result :=
  suiteResultLoop rs false true

/-- Whether a result node is a `TestCaseResult` (the
`isinstance(result, TestCaseResult)` checks in `result.py`). -/
def isCase : RTree → Bool
  | .TestCaseResult _ _ _ _ => true
  | .TestSuiteResult _ _ _ => false

/-- Stored outcome of a `TestCaseResult` (`none` for a suite node, which
never occurs where this is used). -/
def caseOutcome : RTree → Option Result
  | .TestCaseResult _ o _ _ => o
  | .TestSuiteResult _ _ _ => none

/-- Stored failure reason of a `TestCaseResult`. -/
def caseReason : RTree → Option String
  | .TestCaseResult _ _ r _ => r
  | .TestSuiteResult _ _ _ => none

/-- Name of a result node. -/
def nameOf : RTree → String
  | .TestCaseResult n _ _ _ => n
  | .TestSuiteResult n _ _ => n

mutual

/-- Every `TestCaseResult` contained anywhere in a result node, in
depth-first document order (used to state what a full traversal would
contain; the source has no correct such traversal, see `iterInorder`). -/
def caseList : RTree → List RTree
  | .TestCaseResult n o r e => [.TestCaseResult n o r e]
  | .TestSuiteResult _ _ rs => caseListL rs

/-- List version of `caseList`. -/
def caseListL : List RTree → List RTree
  | [] => []
  | r :: rest => caseList r ++ caseListL rest

end

/-- Names of all test case results contained anywhere in a node, in
depth-first document order. -/
def caseNames (r : RTree) : List String :=
  (caseList r).map nameOf

/-- The generator `TestSuiteResult.iter_inorder` (`result.py` lines
138-153) applied to a `results` list: a test case child is yielded; a suite
child is yielded followed by its *direct* `results` — the inner
`for result in result` iterates the sub-suite without recursing further, so
grandchild suites are yielded but never entered. -/
def iterInorder (results : List RTree) : List RTree :=
  results.flatMap fun r =>
    match r with
    | .TestSuiteResult n e rs => .TestSuiteResult n e rs :: rs
    | c => [c]

/-- The generator `TestSuiteResult.iter_tests` (`result.py` lines 127-136):
filter the `iter_inorder` stream down to `TestCaseResult`s. -/
def iterTests (results : List RTree) : List RTree :=
  (iterInorder results).filter isCase

/-- Value of `root.iter_tests()` for a root result node, as consumed by
`ConsoleFormatter.__str__` and `ConsoleFormatter.summarize_results`. -/
def iterTestsOf : RTree → List RTree
  | .TestSuiteResult _ _ rs => iterTests rs
  | _ => []

/-- Count, in `ConsoleFormatter.summarize_results` (`result.py` lines
262-268), of tests filed under outcome `r` (the length of
`summary[r]`). -/
def summarizeCount (root : RTree) (r : Result) : Nat :=
  (iterTestsOf root).countP fun t => caseOutcome t == some r

/-- Total of the per-outcome counts in the console summary table. -/
def summarizeTotal (root : RTree) : Nat :=
  ([Result.PASS, .XFAIL, .SKIP, .ERROR, .FAIL].map (summarizeCount root)).sum

mutual

/-- The helper `recurse_flatten` of `JUnitFormatter.flatten_suites`
(`result.py` lines 341-363) on a suite result: child test cases are
collected into `our_testcases` and child suites are recursed into, their
emissions collected into `flat_suites` (see `recurseFlattenLoop`); when
this suite owned at least one direct test case, a metadata copy of it
holding exactly those test cases is appended after the nested emissions.
The source only ever calls it on suite results; the test case branch is
unreachable. -/
def recurseFlatten : RTree → List RTree
  | .TestCaseResult _ _ _ _ => []
  | .TestSuiteResult name elapsed results =>
      let acc := recurseFlattenLoop results
      if acc.1.isEmpty then acc.2
      else acc.2 ++ [.TestSuiteResult name elapsed acc.1]

/-- The `for result in suite` loop of `recurse_flatten`, returning the two
accumulators `(our_testcases, flat_suites)`: a child test case is appended
to `our_testcases`, a child suite's recursive emissions extend
`flat_suites`. -/
def recurseFlattenLoop : List RTree → List RTree × List RTree
  | [] => ([], [])
  | r :: rest =>
      let acc := recurseFlattenLoop rest
      match r with
      | .TestCaseResult n o rsn e => (.TestCaseResult n o rsn e :: acc.1, acc.2)
      | .TestSuiteResult _ _ _ => (acc.1, recurseFlatten r ++ acc.2)

end

/-- `JUnitFormatter.flatten_suites` (`result.py` lines 325-371) on a
toplevel suite result: a fresh metadata copy of the toplevel whose
`results` are the suites emitted by `recurse_flatten` (extending by the
empty list when nothing was emitted is the identity). -/
def flattenSuites (name : String) (elapsed : Nat) (results : List RTree) :
    RTree :=
  .TestSuiteResult name elapsed
    (recurseFlatten (.TestSuiteResult name elapsed results))

/-- An XML `testcase` element as built by `JUnitFormatter.convert_testcase`:
its `name` and `time` attributes and the tags of its nested child
elements. -/
structure XElem where
  name : String
  time : Nat
  children : List String
deriving DecidableEq, Repr

/-- The set `JUnitFormatter.passing_results = {Result.PASS, Result.XFAIL}`. -/
def passingResults (r : Result) : Bool :=
  r == .PASS || r == .XFAIL

/-- `JUnitFormatter.convert_testcase` (`result.py` lines 373-399) on a test
case result with the given name, outcome and elapsed time.  The source
creates the `testcase` element, then for a passing outcome sets
`xstate = Result.PASS` (attaching no nested element); for `SKIP`, `FAIL`
and `ERROR` it evaluates `ET.SubElement(x_test, ...)` — but no variable
`x_test` is in scope (the element variable is named `xtest`), so Python
raises a `NameError`; a stored outcome of `None` falls through to
`assert False`. -/
def convert_testcase (name : String) (outcome : Option Result)
    (elapsed : Nat) : Except String XElem :=
  let xtest : XElem := ⟨name, elapsed, []⟩
  match outcome with
  | some r =>
      if passingResults r then .ok xtest
      else .error "NameError: name x_test is not defined"
  | none => .error "AssertionError: Unknown test state"

/-! The suite/test tree (`suite.py`, `test.py`) and the runner
(`runner.py`). -/

/-- Effect of an externally supplied test body
(`test.test(result=result, fixtures=fixtures)`) on the fresh mutable
`TestCaseResult` passed to it: it either raises with a message, or returns
normally having left an optional outcome and optional reason on the
result. -/
inductive Body where
  | raises (msg : String)
  | returns (outcome : Option Result) (reason : Option String)
deriving Repr

/-- The suite/test tree walked by the runner: a `TestCase` leaf
(`test.py`: name plus required fixtures plus body) or a `TestSuite` node
(`suite.py`: name, suite-scoped fixtures, `failfast` and `parallelizable`
flags, ordered `items`).  A fixture is identified by its name; a fixtures
dict is embedded as its ordered, duplicate-free key list. -/
inductive TTree where
  | TestCase (name : String) (fixtures : List String) (body : Body)
  | TestSuite (name : String) (fixtures : List String) (failfast : Bool)
      (parallelizable : Bool) (items : List TTree)
deriving Repr

/-- Python `dict.copy()` followed by `dict.update(new)`: keys already
present keep their position (their value is overwritten — here a fixture's
value is its name, so this is the identity on them), new keys are appended
in order. -/
def dictUpdate (old new : List String) : List String :=
  old ++ new.filter (fun k => !old.contains k)

/-- Call tree recording the fixture `setup()`/`teardown()` calls and timer
activity performed while the runner processes one tree node; a result
synthesized by `_generate_skips` performs none, recorded as a `skippedF`
frame. -/
inductive Frame where
  | testF (name : String) (setups : List String) (timerRan : Bool)
      (teardowns : List String)
  | suiteF (name : String) (setups : List String) (children : List Frame)
      (teardowns : List String)
  | skippedF (name : String)
deriving Repr

/-- Fixture names torn down by a frame's own invocation. -/
def Frame.teardowns : Frame → List String
  | .testF _ _ _ td => td
  | .suiteF _ _ _ td => td
  | .skippedF _ => []

/-- Fixture names set up by a frame's own invocation. -/
def Frame.setups : Frame → List String
  | .testF _ su _ _ => su
  | .suiteF _ su _ _ => su
  | .skippedF _ => []

/-- `Runner.run_test` (`runner.py` lines 65-101): create a fresh
`TestCaseResult`, call `setup()` on each of the test's own fixtures, merge
the inherited fixtures with the test's own (shallow copy + update), start
the timer, run the body catching any exception by setting the outcome to
`FAIL` (the bare `except:` stores no reason), stop the timer, default a
still-unset outcome to `PASS`, then call `teardown()` on
`fixtures[name]` for each of the test's own fixture names — which the
merge resolves to the test's own fixtures. -/
def runTest (ctx : List String) (name : String) (fxs : List String)
    (body : Body) : RTree × Frame :=
  let _merged := dictUpdate ctx fxs
  let outcomeAndReason : Option Result × Option String :=
    match body with
    | .raises _ => (some .FAIL, none)
    | .returns o rsn => (o, rsn)
  let outcome :=
    match outcomeAndReason.1 with
    | none => some Result.PASS
    | some r => some r
  (.TestCaseResult name outcome outcomeAndReason.2 0,
   .testF name fxs true fxs)

/-- `Runner._generate_skips` (`runner.py` lines 103-116) on the remaining
items: a `TestCase` gets a `TestCaseResult` whose outcome is set to `SKIP`;
a `TestSuite` gets a bare `TestSuiteResult` with no children (which is not
descended into). -/
def genSkips (items : List TTree) : List RTree :=
  items.map fun item =>
    match item with
    | .TestCase n _ _ => .TestCaseResult n (some .SKIP) none 0
    | .TestSuite n _ _ _ _ => .TestSuiteResult n 0 []

/-- Frames for results synthesized by `_generate_skips`: nothing is
executed for them. -/
def genSkipFrames (items : List TTree) : List Frame :=
  items.map fun item =>
    match item with
    | .TestCase n _ _ => .skippedF n
    | .TestSuite n _ _ _ _ => .skippedF n

mutual

/-- `Runner.run_suite` (`runner.py` lines 17-63) on a `TestSuite` node:
create a fresh `TestSuiteResult`, call `setup()` on each of the suite's
own fixtures, merge the inherited fixture context with the suite's own,
run the children in order appending their results, breaking out to
`_generate_skips` when `failfast` holds and a child's computed outcome is
in `Result.failfast`, and finally — on every exit path of the loop — call
`teardown()` on each of the suite's own fixtures.  The `isinstance`
dispatch of `run_suite`'s loop is folded in here: applied to a `TestCase`
node this is `Runner.run_test`. -/
def runSuite (ctx : List String) : TTree → RTree × Frame
  | .TestCase n fxs b => runTest ctx n fxs b
  | .TestSuite name sfxs failfast _par items =>
      let merged := dictUpdate ctx sfxs
      let children := runItems merged failfast items
      (.TestSuiteResult name 0 children.1,
       .suiteF name sfxs children.2 sfxs)

/-- The `for (idx, item) in suite_iterator` loop of `run_suite`, returning
the child results and child frames in order. -/
def runItems (ctx : List String) (failfast : Bool) :
    List TTree → List RTree × List Frame
  | [] => ([], [])
  | item :: rest =>
      let rf := runSuite ctx item
      if failfast && Result.failfastCheck (resultOf rf.1) then
        (rf.1 :: genSkips rest, rf.2 :: genSkipFrames rest)
      else
        let acc := runItems ctx failfast rest
        (rf.1 :: acc.1, rf.2 :: acc.2)

end

/-! Suite construction (`suite.py`). -/

/-- `TestSuite.__init__` (`suite.py` lines 9-38): store the name, flags,
fixtures and items.  The embedding returns an `Except` to make the error
behaviour of construction explicit: the constructor performs no validation
whatsoever — in particular it never calls `_detect_cycle`, which is dead
code — so construction always succeeds. -/
def TestSuiteInit (name : String) (items : List TTree)
    (fixtures : List String) (failfast : Bool) (parallelizable : Bool) :
    Except String TTree :=
  .ok (.TestSuite name fixtures failfast parallelizable items)

/-! The `cacheresult` memoization combinator (`helper.py` lines 139-159),
which caches a side-effecting function by argument key: the cache is an
association list keyed by the (hashable) call arguments, the wrapped
function is a state transformer standing for the cached side-effecting
setup. -/

/-- One call of the `wrapper` closure produced by `cacheresult`: on a cache
hit return the stored result touching neither the cache nor the world
state; on a miss run the underlying function once, store its result and
return it. -/
def cacheCall {κ ν σ : Type} [DecidableEq κ] (f : κ → σ → ν × σ) (k : κ)
    (cache : List (κ × ν)) (st : σ) : ν × List (κ × ν) × σ :=
  match cache.lookup k with
  | some v => (v, cache, st)
  | none =>
      let r := f k st
      (r.1, cache ++ [(k, r.1)], r.2)

/-- A sequence of `n` calls of the cached function on the same key `k`
(e.g. one `setup()` call per dependent test), collecting the values
returned to each caller. -/
def cacheCalls {κ ν σ : Type} [DecidableEq κ] (f : κ → σ → ν × σ) (k : κ) :
    Nat → List (κ × ν) → σ → List ν × List (κ × ν) × σ
  | 0, cache, st => ([], cache, st)
  | n + 1, cache, st =>
      let c := cacheCall f k cache st
      let acc := cacheCalls f k n c.2.1 c.2.2
      (c.1 :: acc.1, acc.2.1, acc.2.2)

/-- Modelled from the spec: the `Fixture` base class (`whimsy/fixture.py`)
is not among the sources, so the `buildOnce` wiring of §4.1 — "for a
`buildOnce` fixture, idempotent — subsequent calls return the cached
outcome without re-running side effects" — is modelled the way
`SConsFixture.setup` (`gem5/fixture.py` lines 42-48) realizes it: the
fixture's raw side-effecting `setup` is wrapped by `cacheresult`, keyed by
the fixture instance (`self`), so every call on one instance uses one
key. -/
def buildOnceSetup {σ ν : Type} (rawSetup : σ → ν × σ) (n : Nat) (st : σ) :
    List ν × List (Unit × ν) × σ :=
  cacheCalls (fun _ s => rawSetup s) () n [] st

/-! Definitions taken from the specification's words, to be compared with
the embedded source. -/

/-- Aggregation rule of spec §4.4 stated over a list of direct child
outcomes: `ERROR` if any child outcome is `ERROR`, else `FAIL` if any is
`FAIL`, else `SKIP` if every child outcome is `SKIP` (vacuously so for no
children), else `PASS`. -/
def specAggregate (outs : List Result) : Result :=
  if outs.any (· == .ERROR) then .ERROR
  else if outs.any (· == .FAIL) then .FAIL
  else if outs.all (· == .SKIP) then .SKIP
  else .PASS

/-- Whether a suite result's direct `results` own at least one test case. -/
def hasDirectCase (rs : List RTree) : Bool :=
  rs.any isCase

/-- The direct test case results of a suite result, in order. -/
def directCases (rs : List RTree) : List RTree :=
  rs.filter isCase

mutual

/-- Emission of the flattening transform stated from the (amended) spec's
words, for one node: a test case emits nothing by itself; a suite emits —
recursively — its nested emissions followed, exactly when it owns at least
one direct test case, by a flat copy of itself retaining its name, elapsed
time and exactly its direct test case results. -/
def emitSpecNode : RTree → List RTree
  | .TestCaseResult _ _ _ _ => []
  | .TestSuiteResult n e rs =>
      emitSpecL rs ++
        (if hasDirectCase rs then [.TestSuiteResult n e (directCases rs)]
         else [])

/-- Spec-worded emissions of a list of children, visited in order. -/
def emitSpecL : List RTree → List RTree
  | [] => []
  | r :: rest => emitSpecNode r ++ emitSpecL rest

end

/-- Spec-worded emission for one suite with the given components: its
nested emissions, then a flat copy of itself exactly when it owns a direct
test case. -/
def emitSpec (name : String) (elapsed : Nat) (results : List RTree) :
    List RTree :=
  emitSpecL results ++
    (if hasDirectCase results then
      [.TestSuiteResult name elapsed (directCases results)]
     else [])

/-- A well-formed flat emission: a suite whose children are test cases
only, at least one of them. -/
def emittedOk : RTree → Bool
  | .TestSuiteResult _ _ cs => cs.all isCase && !cs.isEmpty
  | .TestCaseResult _ _ _ _ => false

mutual

/-- Every test case result contained anywhere in a node has a stored
outcome (`_result is not None`). -/
def allCasesSet : RTree → Bool
  | .TestCaseResult _ o _ _ => o.isSome
  | .TestSuiteResult _ _ rs => allCasesSetL rs

/-- List version of `allCasesSet`. -/
def allCasesSetL : List RTree → Bool
  | [] => true
  | r :: rest => allCasesSet r && allCasesSetL rest

end

/-- Outcomes of the direct children of a suite result, in order. -/
def childOutcomes : RTree → List (Option Result)
  | .TestSuiteResult _ _ rs => rs.map resultOf
  | _ => []

/-- A test whose body returns leaving no outcome: the runner defaults it
to `PASS` (the `alwaysPass` test of the failfast scenario). -/
def alwaysPass : TTree :=
  .TestCase "alwaysPass" [] (.returns none none)

/-- A test whose body raises: the runner records `FAIL` (the `alwaysFail`
test of the failfast scenario). -/
def alwaysFail : TTree :=
  .TestCase "alwaysFail" [] (.raises "assertion failed")

/-- A result tree holding one test nested below three suite levels. -/
def deepTree : RTree :=
  .TestSuiteResult "Root" 0
    [.TestSuiteResult "S1" 0
      [.TestSuiteResult "S2" 0
        [.TestCaseResult "T" (some .PASS) none 0]]]

/-! Claim C1: suite outcome aggregation. -/

/-- Scanning loop of `TestSuiteResult.result` against the spec rule,
generalized over the two accumulators. -/
theorem suiteResultLoop_spec (rs : List RTree) (outs : List Result)
    (failed all_skipped : Bool) (h : rs.map resultOf = outs.map some) :
    suiteResultLoop rs failed all_skipped =
      if outs.any (· == .ERROR) then .ERROR
      else if failed || outs.any (· == .FAIL) then .FAIL
      else if all_skipped && outs.all (· == .SKIP) then .SKIP
      else .PASS := by
  induction rs generalizing outs failed all_skipped with
  | nil =>
      cases outs with
      | nil => simp [suiteResultLoop]
      | cons o os => simp at h
  | cons r rest ih =>
      cases outs with
      | nil => simp at h
      | cons o os =>
          simp only [List.map_cons, List.cons.injEq] at h
          obtain ⟨h1, h2⟩ := h
          cases o <;>
            simp [suiteResultLoop, h1, ih os _ _ h2, Bool.or_assoc,
              Bool.and_assoc]

/-- Claim C1: for every suite result whose direct children all carry an
outcome, the computed `result` property follows the §4.4 aggregation rule
over the children's outcomes scanned in order — `ERROR` if any child is
`ERROR`, else `FAIL` if any child is `FAIL`, else `SKIP` if every child is
`SKIP` (vacuously `SKIP` for zero children), else `PASS` (covering any mix
of `PASS` and `XFAIL`); children that are suite results enter the scan with
their own recursively computed outcome, exactly like test outcomes. -/
theorem C1_suite_outcome_aggregation (rs : List RTree) (outs : List Result)
    (h : rs.map resultOf = outs.map some) :
    suiteResult rs = specAggregate outs := by
  simpa [suiteResult, specAggregate] using
    suiteResultLoop_spec rs outs false true h

/-- Witness for C1 at a concrete two-child suite whose second child is a
nested suite: the nested suite's computed outcome (`FAIL`) enters the scan
like a test outcome, and the rule yields `FAIL`. -/
theorem C1_suite_outcome_aggregation_witness :
    ([RTree.TestCaseResult "t1" (some .PASS) none 0,
      RTree.TestSuiteResult "s" 0
        [RTree.TestCaseResult "t2" (some .FAIL) none 0]].map resultOf
      = [Result.PASS, Result.FAIL].map some) ∧
    suiteResult
      [RTree.TestCaseResult "t1" (some .PASS) none 0,
       RTree.TestSuiteResult "s" 0
         [RTree.TestCaseResult "t2" (some .FAIL) none 0]]
      = specAggregate [Result.PASS, Result.FAIL] :=
  ⟨by decide,
   C1_suite_outcome_aggregation _ [Result.PASS, Result.FAIL] (by decide)⟩

/-! Claim C2: failfast short-circuiting and skip synthesis. -/

/-- Claim C2: in a failfast suite, as soon as a child's computed outcome is
`ERROR` or `FAIL` the runner stops iterating: the children up to and
including the failing one are run, every remaining sibling is never
executed and receives a synthesized result from `_generate_skips` — a
test case result set to `SKIP` for a test sibling, a childless suite
result (whose computed outcome is therefore `SKIP`, without descending)
for a suite sibling; every synthesized result's computed outcome is
`SKIP`.  Concretely, a failfast suite of `[alwaysPass, alwaysFail,
alwaysPass]` yields child outcomes `[PASS, FAIL, SKIP]` in order, and the
same suite without failfast yields `[PASS, FAIL, PASS]`. -/
theorem C2_failfast_skip_synthesis :
    (∀ (ctx : List String) (pre : List TTree) (bad : TTree)
        (rest : List TTree),
      (∀ x ∈ pre, Result.failfastCheck (resultOf (runSuite ctx x).1) = false) →
      Result.failfastCheck (resultOf (runSuite ctx bad).1) = true →
      runItems ctx true (pre ++ bad :: rest) =
        ((pre ++ [bad]).map (fun x => (runSuite ctx x).1) ++ genSkips rest,
         (pre ++ [bad]).map (fun x => (runSuite ctx x).2) ++
           genSkipFrames rest)) ∧
    (∀ items : List TTree,
      (genSkips items).map resultOf = items.map (fun _ => some .SKIP)) ∧
    childOutcomes
        (runSuite []
          (.TestSuite "ffsuite" [] true false
            [alwaysPass, alwaysFail, alwaysPass])).1
      = [some .PASS, some .FAIL, some .SKIP] ∧
    childOutcomes
        (runSuite []
          (.TestSuite "suite" [] false false
            [alwaysPass, alwaysFail, alwaysPass])).1
      = [some .PASS, some .FAIL, some .PASS] := by
  refine ⟨?_, ?_, by decide, by decide⟩
  · intro ctx pre bad rest hpre hbad
    induction pre with
    | nil => simp [runItems, hbad]
    | cons x xs ih =>
        have hx : Result.failfastCheck (resultOf (runSuite ctx x).1)
            = false :=
          hpre x (by simp)
        have hxs :
            ∀ y ∈ xs, Result.failfastCheck (resultOf (runSuite ctx y).1)
              = false :=
          fun y hy => hpre y (by simp [hy])
        simp [runItems, hx, ih hxs]
  · intro items
    induction items with
    | nil => simp [genSkips]
    | cons item rest ih =>
        cases item <;> simp [genSkips, resultOf, suiteResultLoop, ih] <;>
          simpa [genSkips] using ih

/-- Witness for C2 at the concrete scenario suite: the prefix
`[alwaysPass]` does not trip failfast, `alwaysFail` does, and the runner's
loop yields the run prefix followed by synthesized skips. -/
theorem C2_failfast_skip_synthesis_witness :
    (∀ x ∈ [alwaysPass],
        Result.failfastCheck (resultOf (runSuite [] x).1) = false) ∧
    Result.failfastCheck (resultOf (runSuite [] alwaysFail).1) = true ∧
    runItems [] true ([alwaysPass] ++ alwaysFail :: [alwaysPass]) =
      (([alwaysPass] ++ [alwaysFail]).map (fun x => (runSuite [] x).1) ++
         genSkips [alwaysPass],
       ([alwaysPass] ++ [alwaysFail]).map (fun x => (runSuite [] x).2) ++
         genSkipFrames [alwaysPass]) := by
  have h1 : ∀ x ∈ [alwaysPass],
      Result.failfastCheck (resultOf (runSuite [] x).1) = false := by decide
  have h2 : Result.failfastCheck (resultOf (runSuite [] alwaysFail).1)
      = true := by decide
  exact ⟨h1, h2,
    C2_failfast_skip_synthesis.1 [] [alwaysPass] alwaysFail [alwaysPass]
      h1 h2⟩

/-! Claim C3: guaranteed teardown of a scope's own fixtures. -/

/-- Claim C3: every invocation of `run_suite` calls `teardown()` exactly
once on each of the invoked suite's own fixtures before returning — the
teardown call sequence of the invocation's frame is exactly the suite's
fixture dict (one call per key) — for every inherited context, every
`failfast` setting and every list of children, hence on every exit path of
the child loop, including the failfast break; likewise every invocation of
`run_test` tears down the test's own fixtures exactly once before
returning, for every test body, including a raising one. -/
theorem C3_teardown_exactly_once :
    (∀ (ctx : List String) (name : String) (sfxs : List String)
        (ff par : Bool) (items : List TTree),
      Frame.teardowns
          (runSuite ctx (.TestSuite name sfxs ff par items)).2 = sfxs) ∧
    (∀ (ctx : List String) (name : String) (fxs : List String)
        (body : Body),
      Frame.teardowns (runTest ctx name fxs body).2 = fxs) := by
  constructor
  · intro ctx name sfxs ff par items
    rfl
  · intro ctx name fxs body
    cases body <;> rfl

/-! Claim C4: a raising test body is contained, but its failure is not
captured as the result's reason. -/

/-- Counterexample to C4 as stated: for the concrete test `"t"` whose body
raises with message `"boom"`, `run_test` does set the outcome to `FAIL`,
but the bare `except:` clause stores nothing in `result.reason` — the
reason is `None`, not the captured failure. -/
theorem C4_reason_not_captured :
    caseOutcome (runTest [] "t" [] (.raises "boom")).1 = some .FAIL ∧
    caseReason (runTest [] "t" [] (.raises "boom")).1 = none ∧
    caseReason (runTest [] "t" [] (.raises "boom")).1 ≠ some "boom" := by
  refine ⟨rfl, rfl, by simp [runTest, caseReason]⟩

/-- Claim C4 as amended: for every test whose body raises an uncaught
failure during `run_test`, the returned test case result has outcome
`FAIL` and the failure does not propagate out of the runner — `run_test`
still runs the timer, tears down the test's own fixtures and returns
normally — but the failure is *not* captured as the result's reason, which
is left `None`. -/
theorem C4_test_body_failure_contained (ctx : List String) (name : String)
    (fxs : List String) (msg : String) :
    runTest ctx name fxs (.raises msg) =
      (.TestCaseResult name (some .FAIL) none 0,
       .testF name fxs true fxs) :=
  rfl

/-! Claim C10: every runner-produced test case result has a set outcome. -/

/-- A `run_test` result always carries a stored outcome: a raising body
yields `FAIL`, a body that set an outcome keeps it, and a body that set
none is defaulted to `PASS`. -/
theorem allCasesSet_runTest (ctx : List String) (name : String)
    (fxs : List String) (body : Body) :
    allCasesSet (runTest ctx name fxs body).1 = true := by
  cases body with
  | raises msg => rfl
  | returns o rsn => cases o <;> rfl

/-- Every result synthesized by `_generate_skips` carries a stored outcome
on each of its test case results (a skipped suite sibling has no test case
results at all). -/
theorem allCasesSetL_genSkips (items : List TTree) :
    allCasesSetL (genSkips items) = true := by
  induction items with
  | nil => rfl
  | cons item rest ih =>
      cases item <;> simp [genSkips, allCasesSet, allCasesSetL, isCase] <;>
        simpa [genSkips] using ih

/-- Every `TTree` node has positive size (used for the strong induction
over the runner's recursion). -/
theorem TTree.sizeOf_pos (t : TTree) : 1 ≤ sizeOf t := by
  cases t <;> simp_arith

/-- All test case results produced by the runner's child loop carry a
stored outcome, by strong induction on the size of the item list. -/
theorem allCasesSetL_runItems :
    ∀ (N : Nat) (items : List TTree), sizeOf items ≤ N →
      ∀ (ctx : List String) (ff : Bool),
        allCasesSetL (runItems ctx ff items).1 = true := by
  intro N
  induction N with
  | zero =>
      intro items h ctx ff
      cases items with
      | nil => rw [runItems]; rfl
      | cons item rest =>
          exfalso
          have := TTree.sizeOf_pos item
          simp only [List.cons.sizeOf_spec] at h
          omega
  | succ n ih =>
      intro items h ctx ff
      cases items with
      | nil => rw [runItems]; rfl
      | cons item rest =>
          have hi := TTree.sizeOf_pos item
          simp only [List.cons.sizeOf_spec] at h
          have hrest : sizeOf rest ≤ n := by omega
          have hitem : allCasesSet (runSuite ctx item).1 = true := by
            cases item with
            | TestCase nm fxs b =>
                simpa [runSuite] using allCasesSet_runTest ctx nm fxs b
            | TestSuite nm fxs ffc p its =>
                have hits : sizeOf its ≤ n := by
                  simp only [TTree.TestSuite.sizeOf_spec] at h
                  omega
                simpa [runSuite, allCasesSet] using
                  ih its hits (dictUpdate ctx fxs) ffc
          rw [runItems]
          split
          · simp [allCasesSetL, hitem, allCasesSetL_genSkips]
          · simp [allCasesSetL, hitem, ih rest hrest ctx ff]

/-- Claim C10: every test case result in a result tree returned by
`Runner.run_suite` has a stored, non-`None` outcome — `run_test` always
sets one (defaulting to `PASS` when the body set none) and
failfast-synthesized test results are set to `SKIP` — so formatters that
index by a test's outcome never meet an unset outcome on a runner-produced
test result. -/
theorem C10_runner_outcomes_set :
    (∀ (ctx : List String) (name : String) (sfxs : List String)
        (ff par : Bool) (items : List TTree),
      allCasesSet (runSuite ctx (.TestSuite name sfxs ff par items)).1
        = true) ∧
    (∀ (ctx : List String) (name : String) (fxs : List String)
        (rsn : Option String),
      caseOutcome (runTest ctx name fxs (.returns none rsn)).1
        = some .PASS) ∧
    (∀ items : List TTree, allCasesSetL (genSkips items) = true) := by
  refine ⟨?_, ?_, allCasesSetL_genSkips⟩
  · intro ctx name sfxs ff par items
    simpa [runSuite, allCasesSet] using
      allCasesSetL_runItems (sizeOf items) items le_rfl
        (dictUpdate ctx sfxs) ff
  · intro ctx name fxs rsn
    rfl

/-! Claim C5: the JUnit flattening transform. -/

/-- A list with no test case among its members has no direct cases, and
vice versa. -/
theorem directCases_isEmpty (rs : List RTree) :
    (directCases rs).isEmpty = !hasDirectCase rs := by
  induction rs with
  | nil => rfl
  | cons r rest ih =>
      cases hr : isCase r
      · simpa [directCases, hasDirectCase, List.filter_cons, hr] using ih
      · simp [directCases, hasDirectCase, List.filter_cons, hr]

/-- The direct cases of a results list are all test cases. -/
theorem directCases_all (rs : List RTree) :
    (directCases rs).all isCase = true := by
  simp [directCases, List.all_filter]

/-- Simultaneous induction over the nested result tree and lists of
result trees, derived from the auto-generated recursor. -/
theorem rtree_mutual_ind (P : RTree → Prop) (Q : List RTree → Prop)
    (hcase : ∀ n o rsn e, P (.TestCaseResult n o rsn e))
    (hsuite : ∀ n e rs, Q rs → P (.TestSuiteResult n e rs))
    (hnil : Q [])
    (hcons : ∀ r rest, P r → Q rest → Q (r :: rest)) :
    (∀ t, P t) ∧ (∀ l, Q l) := by
  have hP : ∀ t, P t := fun t => @RTree.rec P Q hcase hsuite hnil hcons t
  exact ⟨hP,
    fun l => List.rec hnil (fun r rest ih => hcons r rest (hP r) ih) l⟩

/-- `recurse_flatten` computes exactly the spec-worded emission: on any
node it emits `emitSpecNode`, and its loop returns exactly the direct test
cases and the children's emission list. -/
theorem recurseFlatten_spec_joint :
    (∀ t, recurseFlatten t = emitSpecNode t) ∧
    (∀ l, recurseFlattenLoop l = (directCases l, emitSpecL l)) := by
  refine rtree_mutual_ind _ _ ?_ ?_ ?_ ?_
  · intro n o rsn e
    rfl
  · intro n e rs hq
    simp only [recurseFlatten, emitSpecNode, hq, directCases_isEmpty]
    cases h : hasDirectCase rs <;> simp [h]
  · rfl
  · intro r rest hp hq
    cases r with
    | TestCaseResult n o rsn e =>
        simp [recurseFlattenLoop, hq, directCases, emitSpecL, emitSpecNode,
          List.filter_cons, isCase]
    | TestSuiteResult n e rs =>
        simp [recurseFlattenLoop, hq, hp, directCases, emitSpecL,
          List.filter_cons, isCase]

/-- The `recurse_flatten` loop returns exactly the suite's direct test
cases and the spec-worded emission list. -/
theorem recurseFlattenLoop_spec (rs : List RTree) :
    recurseFlattenLoop rs = (directCases rs, emitSpecL rs) :=
  recurseFlatten_spec_joint.2 rs

/-- `caseListL` distributes over list append. -/
theorem caseListL_append (a b : List RTree) :
    caseListL (a ++ b) = caseListL a ++ caseListL b := by
  induction a with
  | nil => rfl
  | cons r rest ih => simp [caseListL, ih]

/-- On a list of test case results, `caseListL` is the identity. -/
theorem caseListL_of_cases (cs : List RTree) (h : cs.all isCase = true) :
    caseListL cs = cs := by
  induction cs with
  | nil => rfl
  | cons r rest ih =>
      simp only [List.all_cons, Bool.and_eq_true] at h
      cases r with
      | TestCaseResult n o rsn e => simp [caseListL, caseList, ih h.2]
      | TestSuiteResult n e rs => simp [isCase] at h

/-- The test cases inside the optional flat copy emitted for a suite are
exactly the suite's direct test cases (none are emitted exactly when
there are none). -/
theorem caseListL_emitOpt (n : String) (e : Nat) (rs : List RTree) :
    caseListL
        (if hasDirectCase rs then
          [RTree.TestSuiteResult n e (directCases rs)]
         else []) = directCases rs := by
  cases h : hasDirectCase rs with
  | true =>
      simp [caseListL, caseList, caseListL_of_cases _ (directCases_all rs)]
  | false =>
      have hnil : directCases rs = [] := by
        have hh := directCases_isEmpty rs
        rw [h] at hh
        simpa [List.isEmpty_iff] using hh
      simp [h, hnil, caseListL]

/-- The spec-worded emission preserves the multiset of test cases: the
cases inside a node's (respectively a results list's) emissions, together
with its own direct cases — which the caller attaches to its own flat
copy — are a permutation of all cases it contains. -/
theorem emitSpec_perm_joint :
    (∀ t, (caseListL (emitSpecNode t) ++ directCases [t]).Perm
      (caseList t)) ∧
    (∀ l, (caseListL (emitSpecL l) ++ directCases l).Perm (caseListL l)) := by
  refine rtree_mutual_ind _ _ ?_ ?_ ?_ ?_
  · intro n o rsn e
    simp [emitSpecNode, caseListL, caseList, directCases, List.filter_cons,
      isCase]
  · intro n e rs hq
    have hd : directCases [RTree.TestSuiteResult n e rs] = [] := by
      simp [directCases, isCase]
    simp only [emitSpecNode, caseListL_append, caseListL_emitOpt, hd,
      List.append_nil, caseList]
    exact hq
  · simp [emitSpecL, caseListL, directCases]
  · intro r rest hp hq
    cases r with
    | TestCaseResult n o rsn e =>
        have hd : directCases (RTree.TestCaseResult n o rsn e :: rest)
            = RTree.TestCaseResult n o rsn e :: directCases rest := by
          simp [directCases, List.filter_cons, isCase]
        have hc : caseListL (RTree.TestCaseResult n o rsn e :: rest)
            = RTree.TestCaseResult n o rsn e :: caseListL rest := by
          simp [caseListL, caseList]
        have he : emitSpecL (RTree.TestCaseResult n o rsn e :: rest)
            = emitSpecL rest := by
          simp [emitSpecL, emitSpecNode]
        rw [he, hd, hc]
        exact List.perm_middle.trans (hq.cons _)
    | TestSuiteResult n e rs =>
        have hd : directCases (RTree.TestSuiteResult n e rs :: rest)
            = directCases rest := by
          simp [directCases, List.filter_cons, isCase]
        have hc : caseListL (RTree.TestSuiteResult n e rs :: rest)
            = caseListL rs ++ caseListL rest := by
          simp [caseListL, caseList]
        have he : emitSpecL (RTree.TestSuiteResult n e rs :: rest)
            = emitSpecNode (RTree.TestSuiteResult n e rs) ++ emitSpecL rest := by
          simp [emitSpecL]
        have hp' : (caseListL
            (emitSpecNode (RTree.TestSuiteResult n e rs))).Perm
            (caseListL rs) := by
          have hd2 : directCases [RTree.TestSuiteResult n e rs] = [] := by
            simp [directCases, isCase]
          have hc2 : caseList (RTree.TestSuiteResult n e rs)
              = caseListL rs := by
            simp [caseList]
          rw [hd2, hc2] at hp
          simpa using hp
        rw [he, hd, hc, caseListL_append, List.append_assoc]
        exact hp'.append hq

/-- List part of `emitSpec_perm_joint`. -/
theorem emitSpecL_perm (rs : List RTree) :
    (caseListL (emitSpecL rs) ++ directCases rs).Perm (caseListL rs) :=
  emitSpec_perm_joint.2 rs

/-- The optional flat copy emitted for a suite is a well-formed flat
emission whenever it is emitted at all. -/
theorem emitOpt_ok (n : String) (e : Nat) (rs : List RTree) :
    (if hasDirectCase rs then
      [RTree.TestSuiteResult n e (directCases rs)]
     else [] : List RTree).all emittedOk = true := by
  cases h : hasDirectCase rs with
  | true =>
      have h2 : (directCases rs).isEmpty = false := by
        rw [directCases_isEmpty, h]
        rfl
      simp [emittedOk, directCases_all, h2]
  | false => simp

/-- Every suite emitted by the spec-worded emission is flat and
nonempty. -/
theorem emitSpecL_ok (rs : List RTree) :
    (emitSpecL rs).all emittedOk = true :=
  (rtree_mutual_ind (fun t => (emitSpecNode t).all emittedOk = true)
    (fun l => (emitSpecL l).all emittedOk = true)
    (fun _ _ _ _ => rfl)
    (fun n e rs hq => by
      simp [emitSpecNode, List.all_append, hq, emitOpt_ok])
    rfl
    (fun r rest hp hq => by
      simp [emitSpecL, List.all_append, hp, hq])).2 rs

/-- Refinement: `recurse_flatten` on a suite result emits exactly the
spec-worded emission list. -/
theorem recurseFlatten_eq_emitSpec (name : String) (elapsed : Nat)
    (rs : List RTree) :
    recurseFlatten (.TestSuiteResult name elapsed rs)
      = emitSpec name elapsed rs := by
  rw [recurseFlatten_spec_joint.1]
  rfl

/-- Claim C5 as amended: the flattening transform emits, in recursive
post-order (a child suite's emissions precede its parent's own flat copy),
a flat copy — retaining name, elapsed time and exactly the direct test
case results in their original relative order — for exactly those suite
results owning at least one direct test case; pure containers are not
emitted, a container with no test case descendants yields no suite, every
emitted suite is nonempty and holds only test cases, and the multiset of
test cases (hence the total count) is preserved.  Global test case order
is, however, *not* preserved in general (see the counterexample): a suite
owning both direct test cases and nested suites has its direct test cases
emitted after its nested suites' emissions.  The concrete tree
`Root{SuiteA{Test1}, Container{SuiteB{Test2, Test3}}}` flattens to exactly
`SuiteA` with `[Test1]` and `SuiteB` with `[Test2, Test3]`; `Container` is
never emitted. -/
theorem C5_flattening_amended :
    (∀ (name : String) (elapsed : Nat) (rs : List RTree),
      recurseFlatten (.TestSuiteResult name elapsed rs)
        = emitSpec name elapsed rs) ∧
    (∀ (name : String) (elapsed : Nat) (rs : List RTree),
      (caseList (flattenSuites name elapsed rs)).Perm (caseListL rs)) ∧
    (∀ (name : String) (elapsed : Nat) (rs : List RTree),
      (caseList (flattenSuites name elapsed rs)).length
        = (caseListL rs).length) ∧
    (∀ (name : String) (elapsed : Nat) (rs : List RTree),
      (recurseFlatten (.TestSuiteResult name elapsed rs)).all emittedOk
        = true) ∧
    flattenSuites "Root" 0
        [.TestSuiteResult "SuiteA" 1
           [.TestCaseResult "Test1" (some .PASS) none 2],
         .TestSuiteResult "Container" 3
           [.TestSuiteResult "SuiteB" 4
             [.TestCaseResult "Test2" (some .PASS) none 5,
              .TestCaseResult "Test3" (some .FAIL) none 6]]]
      = .TestSuiteResult "Root" 0
          [.TestSuiteResult "SuiteA" 1
             [.TestCaseResult "Test1" (some .PASS) none 2],
           .TestSuiteResult "SuiteB" 4
             [.TestCaseResult "Test2" (some .PASS) none 5,
              .TestCaseResult "Test3" (some .FAIL) none 6]] := by
  have hperm : ∀ (name : String) (elapsed : Nat) (rs : List RTree),
      (caseList (flattenSuites name elapsed rs)).Perm (caseListL rs) := by
    intro name elapsed rs
    have h : caseList (flattenSuites name elapsed rs)
        = caseListL (emitSpecL rs) ++ directCases rs := by
      simp [flattenSuites, caseList, recurseFlatten_eq_emitSpec, emitSpec,
        caseListL_append, caseListL_emitOpt]
    rw [h]
    exact emitSpecL_perm rs
  refine ⟨recurseFlatten_eq_emitSpec, hperm,
    fun name elapsed rs => (hperm name elapsed rs).length_eq, ?_, rfl⟩
  · intro name elapsed rs
    rw [recurseFlatten_eq_emitSpec]
    simp [emitSpec, List.all_append, emitSpecL_ok, emitOpt_ok]

/-- Counterexample to C5 as stated: for the concrete tree
`Root{Test1, Sub{Test2}}` — a suite owning both a direct test case and a
nested suite — the flattened report lists the test cases as
`[Test2, Test1]` while the original tree holds them in order
`[Test1, Test2]`: the transform does not preserve the original ordering of
test cases. -/
theorem C5_order_counterexample :
    caseNames (flattenSuites "Root" 0
        [.TestCaseResult "Test1" (some .PASS) none 0,
         .TestSuiteResult "Sub" 0
           [.TestCaseResult "Test2" (some .PASS) none 0]])
      = ["Test2", "Test1"] ∧
    (caseListL
        [.TestCaseResult "Test1" (some .PASS) none 0,
         .TestSuiteResult "Sub" 0
           [.TestCaseResult "Test2" (some .PASS) none 0]]).map nameOf
      = ["Test1", "Test2"] ∧
    caseNames (flattenSuites "Root" 0
        [.TestCaseResult "Test1" (some .PASS) none 0,
         .TestSuiteResult "Sub" 0
           [.TestCaseResult "Test2" (some .PASS) none 0]])
      ≠ (caseListL
          [.TestCaseResult "Test1" (some .PASS) none 0,
           .TestSuiteResult "Sub" 0
             [.TestCaseResult "Test2" (some .PASS) none 0]]).map nameOf := by
  exact ⟨rfl, rfl, by decide⟩

/-! Claim C6: `buildOnce` setup is idempotent via `cacheresult`. -/

/-- Once the key is in the cache, every further call of the `cacheresult`
wrapper returns the cached value and leaves both the cache and the world
state untouched. -/
theorem cacheCalls_hit {κ ν σ : Type} [DecidableEq κ] (f : κ → σ → ν × σ)
    (k : κ) (v : ν) :
    ∀ (n : Nat) (cache : List (κ × ν)) (st : σ),
      cache.lookup k = some v →
      cacheCalls f k n cache st = (List.replicate n v, cache, st) := by
  intro n
  induction n with
  | zero => intro cache st h; rfl
  | succ m ih =>
      intro cache st h
      simp [cacheCalls, cacheCall, h, ih _ _ h, List.replicate_succ]

/-- Claim C6: for a `buildOnce` fixture, `setup()` is idempotent — however
many times (`n ≥ 1`) setup is called within one run, the underlying side
effect executes exactly once (the final world state is the state after a
single raw setup, and the cache holds the single stored outcome), and
every call, the first included, returns the outcome of the first
execution. -/
theorem C6_buildonce_setup_idempotent {σ ν : Type} (rawSetup : σ → ν × σ)
    (n : Nat) (st : σ) (h : 1 ≤ n) :
    (buildOnceSetup rawSetup n st).1
        = List.replicate n (rawSetup st).1 ∧
    (buildOnceSetup rawSetup n st).2.1 = [((), (rawSetup st).1)] ∧
    (buildOnceSetup rawSetup n st).2.2 = (rawSetup st).2 := by
  obtain ⟨m, rfl⟩ : ∃ m, n = m + 1 := ⟨n - 1, by omega⟩
  have hmiss : (([] : List (Unit × ν)).lookup ()) = none := rfl
  have hhit : (([((), (rawSetup st).1)] : List (Unit × ν)).lookup ())
      = some (rawSetup st).1 := rfl
  refine ⟨?_, ?_, ?_⟩ <;>
    simp [buildOnceSetup, cacheCalls, cacheCall, hmiss,
      cacheCalls_hit _ _ _ _ _ _ hhit, List.replicate_succ]

/-- Witness for C6 at a concrete counting setup on three dependents: the
counter advances once, and all three calls observe the first outcome. -/
theorem C6_buildonce_setup_idempotent_witness :
    1 ≤ 3 ∧
    ((buildOnceSetup (fun s : Nat => (s, s + 1)) 3 0).1
        = List.replicate 3 ((fun s : Nat => (s, s + 1)) 0).1 ∧
     (buildOnceSetup (fun s : Nat => (s, s + 1)) 3 0).2.1
        = [((), ((fun s : Nat => (s, s + 1)) 0).1)] ∧
     (buildOnceSetup (fun s : Nat => (s, s + 1)) 3 0).2.2
        = ((fun s : Nat => (s, s + 1)) 0).2) :=
  ⟨by decide,
   C6_buildonce_setup_idempotent (fun s : Nat => (s, s + 1)) 3 0
     (by decide)⟩

/-! Claim C7: suite construction performs no cycle check. -/

/-- Code behaviour contradicting C7: `TestSuite.__init__` performs no
validation and never invokes `_detect_cycle` (which is dead code), so
constructing a suite tree always succeeds — in particular a suite
containing the same child node twice (a duplicate node reference, which
the claim says is rejected with a cycle error at construction) is
constructed without any error. -/
theorem C7_construction_never_fails :
    (∀ (name : String) (items : List TTree) (fixtures : List String)
        (failfast parallelizable : Bool),
      TestSuiteInit name items fixtures failfast parallelizable
        = .ok (.TestSuite name fixtures failfast parallelizable items)) ∧
    TestSuiteInit "parent"
        [.TestSuite "child" [] true false [],
         .TestSuite "child" [] true false []] [] true false
      = .ok (.TestSuite "parent" [] true false
          [.TestSuite "child" [] true false [],
           .TestSuite "child" [] true false []]) :=
  ⟨fun _ _ _ _ _ => rfl, rfl⟩

/-! Claim C8: the console traversal loses tests nested deeper than two
suite levels. -/

/-- Code behaviour contradicting C8: on a result tree with a test three
suite levels deep, `iter_tests` (whose `iter_inorder` yields a child
suite's direct results without recursing further) yields no test at all,
although the tree contains one test case; the console therefore renders no
per-test line for it and the summary table's counts total zero. -/
theorem C8_console_misses_deep_tests :
    iterTestsOf deepTree = [] ∧
    (caseList deepTree).length = 1 ∧
    summarizeTotal deepTree = 0 :=
  ⟨rfl, rfl, rfl⟩

/-! Claim C9: JUnit testcase conversion crashes on non-passing
outcomes. -/

/-- Code behaviour contradicting C9: `convert_testcase` completes (with a
`testcase` element carrying name and time and no nested child) only for
`PASS` and `XFAIL`; for `SKIP`, `ERROR` and `FAIL` it raises a `NameError`
— the element variable is `xtest` but the nested-child branches reference
the undefined name `x_test` — instead of attaching the `skipped`/`error`/
`failure` child element. -/
theorem C9_convert_testcase_name_error :
    convert_testcase "t" (some .PASS) 5 = .ok ⟨"t", 5, []⟩ ∧
    convert_testcase "t" (some .XFAIL) 5 = .ok ⟨"t", 5, []⟩ ∧
    convert_testcase "t" (some .SKIP) 5
      = .error "NameError: name x_test is not defined" ∧
    convert_testcase "t" (some .ERROR) 5
      = .error "NameError: name x_test is not defined" ∧
    convert_testcase "t" (some .FAIL) 5
      = .error "NameError: name x_test is not defined" :=
  ⟨rfl, rfl, rfl, rfl, rfl⟩

end Whimsy
